import Mathlib

/-!
Shallow embedding of `bin/probes/query_multi_fasta_table.py` (phyluce).

The script queries a SQLite table whose first column is a locus id and whose
remaining columns are per-taxon membership flags.  It runs in one of two
modes selected by the `--specific-counts` argument:

* Mode A (no threshold): builds a histogram `counts` of length `T+1`
  (`T` = number of taxa) over flag sums and prints, for every `i` in
  `0..T`, the suffix sum `sum(counts[i:])`.
* Mode B (threshold `K`): partitions loci into a hits file (flag sum
  `>= K`) and a misses file, accumulates a `Counter` of taxon names whose
  flag equals exactly `1` on qualifying rows, and prints the counter and
  the number of qualifying loci.

Rows are modelled with `Nat` flags (the table stores non-negative
membership flags); strings written to files are modelled as Lean
`String`s built exactly as the Python `format` calls build them.
-/

namespace QueryMultiFastaTable

/-- A row of the base-taxon table: `row[0]` is the locus id, `row[1:]` the
membership flags. -/
structure Row where
  id : String
  flags : List Nat
  deriving Repr, DecidableEq

/-- `sum(row[1:])` in the Python source. -/
def sumFlags (r : Row) : Nat := r.flags.sum

/-! ### Mode A: histogram of shared-taxa counts -/

/-- One iteration of the Mode A loop: `ss = sum(row[1:]); counts[ss] += 1`.
`counts` is a numpy array of length `T+1`; indexing it at `ss >= len(counts)`
raises `IndexError`, modelled as `Except.error ()`. -/
def stepA (counts : List Nat) (r : Row) : Except Unit (List Nat) :=
  let ss := sumFlags r
  if ss < counts.length then
    Except.ok (counts.set ss (counts.getD ss 0 + 1))
  else
    Except.error ()

/-- The whole Mode A accumulation loop: `counts = numpy.zeros(len(taxa)+1)`
followed by the `for row in cur.execute(query)` loop.  `T` is `len(taxa)`. -/
def runA (T : Nat) (rows : List Row) : Except Unit (List Nat) :=
  rows.foldlM stepA (List.replicate (T + 1) 0)

/-- The values printed by the Mode A report loop
`for i in xrange(len(taxa)+1): print ... sum(counts[i:])`:
entry `i` is the count printed on the line labeled `i`. -/
def printedA (T : Nat) (counts : List Nat) : List Nat :=
  (List.range (T + 1)).map (fun i => (counts.drop i).sum)

/-! ### Mode B: threshold partition -/

/-- The line written to the hits file for a qualifying row:
`"{}\n".format(row[0])`. -/
def hitLine (r : Row) : String := r.id ++ "\n"

/-- The line written to the misses file for a non-qualifying row:
`"{}\t{}\n".format(row[0], taxon_count, ",".join(...))`.  The third
argument of `format` has no matching placeholder, so the flag list is
dropped and only the id and the flag sum are written. -/
def missLine (r : Row) : String :=
  r.id ++ "\t" ++ Nat.repr (sumFlags r) ++ "\n"

/-- `[taxa[i] for i, j in enumerate(row[1:]) if j == 1]`: the taxon names at
the positions whose flag equals exactly 1. -/
def rowTaxa (taxa : List String) (r : Row) : List String :=
  ((taxa.zip r.flags).filter (fun p => p.2 == 1)).map (fun p => p.1)

/-- `collections.Counter`, modelled as an association list: a key is present
exactly when it has been added at least once (Python's `Counter` only
stores keys that were counted). -/
abbrev Cnt := List (String × Nat)

/-- Add one occurrence of `n` to the counter: increment the entry holding
key `n` when one exists, otherwise append a new entry with count 1 (a key
enters the `Counter` the first time it is counted). -/
def cntAdd : Cnt → String → Cnt
  | [], n => [(n, 1)]
  | p :: c, n => if p.1 == n then (p.1, p.2 + 1) :: c else p :: cntAdd c n

/-- `c += Counter(row_taxa)`: add one occurrence of every name in `ns`. -/
def cntAddAll (c : Cnt) (ns : List String) : Cnt := ns.foldl cntAdd c

/-- Look a key up in the counter, `0` when absent (`Counter`'s default). -/
def cntGet (c : Cnt) (n : String) : Nat :=
  match c.find? (fun p => p.1 == n) with
  | some p => p.2
  | none => 0

/-- The state threaded through the Mode B loop: the taxon `Counter`, the
`total_loci` count, and the bodies written after the `[hits]` and
`[misses]` markers. -/
structure BState where
  c : Cnt
  totalLoci : Nat
  hits : List String
  misses : List String
  deriving Repr, DecidableEq

/-- One iteration of the Mode B loop over a row. -/
def stepB (taxa : List String) (K : Nat) (s : BState) (r : Row) : BState :=
  let taxonCount := sumFlags r
  if K ≤ taxonCount then
    { c := cntAddAll s.c (rowTaxa taxa r)
      totalLoci := s.totalLoci + 1
      hits := s.hits ++ [hitLine r]
      misses := s.misses }
  else
    { s with misses := s.misses ++ [missLine r] }

/-- The whole Mode B loop: empty counter, `total_loci = 0`, empty file
bodies, then one `stepB` per row in order. -/
def runB (taxa : List String) (K : Nat) (rows : List Row) : BState :=
  rows.foldl (stepB taxa K) ⟨[], 0, [], []⟩

/-! ### Argument handling and mode selection -/

/-- Python truthiness of `args.specific_counts : Option Int`:
`None` and `0` are falsy, every other integer is truthy. -/
def truthyCounts : Option Int → Bool
  | none => false
  | some k => k != 0

/-- Python truthiness of `args.output : Option String`:
`None` and the empty string are falsy. -/
def truthyOutput : Option String → Bool
  | none => false
  | some s => s != ""

/-- `if not args.specific_counts: ... else: ...` — `true` means the `else`
branch (Mode B) runs, `false` means Mode A runs. -/
def selectsModeB (specific_counts : Option Int) : Bool :=
  truthyCounts specific_counts

/-- `SpecificCountsAction.__call__`: after setting
`args.specific_counts = values`, raise `parser.error` when
`args.specific_counts and not args.output`.  `true` means the parser
errors out. -/
def specificCountsErrors (values : Int) (output : Option String) : Bool :=
  truthyCounts (some values) && !truthyOutput output

/-! ### Database access -/

/-- A table: its column names (first one is the locus-id column) and its
rows. -/
structure Table where
  columns : List String
  rows : List Row

/-- The database: a name-to-table association list. -/
abbrev Db := List (String × Table)

/-- `PRAGMA table_info(name)` followed by extracting the column names:
on a missing table the pragma yields no rows, so the result is `[]`
(no error is raised). -/
def pragmaTableInfo (db : Db) (name : String) : List String :=
  match db.find? (fun p => p.1 == name) with
  | some p => p.2.columns
  | none => []

/-- sqlite3 errors raised while the script runs. -/
inductive RunError where
  | operationalError (msg : String)
  | indexError
  deriving Repr, DecidableEq

/-- `cur.execute("SELECT * FROM {}".format(name))`: a missing table raises
`sqlite3.OperationalError` before any row is yielded. -/
def selectAll (db : Db) (name : String) : Except RunError (List Row) :=
  match db.find? (fun p => p.1 == name) with
  | some p => Except.ok p.2.rows
  | none => Except.error (RunError.operationalError ("no such table: " ++ name))

/-- Mode A end to end: introspect the columns (`taxa = values[1:]`), run the
SELECT query, accumulate the histogram, and return the printed counts. -/
def runModeA (db : Db) (name : String) : Except RunError (List Nat) :=
  let values := pragmaTableInfo db name
  let taxa := values.drop 1
  match selectAll db name with
  | Except.error e => Except.error e
  | Except.ok rows =>
    match runA taxa.length rows with
    | Except.error _ => Except.error RunError.indexError
    | Except.ok counts => Except.ok (printedA taxa.length counts)

/-! ### Helper lemmas: Mode B loop characterization -/

/-- Qualifying rows: those the Mode B loop sends to the hits file. -/
def qual (K : Nat) (rows : List Row) : List Row :=
  rows.filter (fun r => decide (K ≤ sumFlags r))

/-- Non-qualifying rows: those the Mode B loop sends to the misses file. -/
def nonqual (K : Nat) (rows : List Row) : List Row :=
  rows.filter (fun r => decide (sumFlags r < K))

theorem foldlB_eq (taxa : List String) (K : Nat) (rows : List Row) :
    ∀ s : BState,
      rows.foldl (stepB taxa K) s =
        { c := ((qual K rows).map (rowTaxa taxa)).foldl cntAddAll s.c
          totalLoci := s.totalLoci + (qual K rows).length
          hits := s.hits ++ (qual K rows).map hitLine
          misses := s.misses ++ (nonqual K rows).map missLine } := by
  induction rows with
  | nil => intro s; simp [qual, nonqual]
  | cons r rows ih =>
    intro s
    by_cases h : K ≤ sumFlags r
    · have h' : ¬ sumFlags r < K := by omega
      simp only [List.foldl_cons, qual, nonqual, List.filter_cons, h, h']
      rw [ih]
      simp [stepB, h, h', qual, nonqual]
      omega
    · have h' : sumFlags r < K := by omega
      simp only [List.foldl_cons, qual, nonqual, List.filter_cons, h, h']
      rw [ih]
      simp [stepB, h, h', qual, nonqual]

theorem runB_eq (taxa : List String) (K : Nat) (rows : List Row) :
    runB taxa K rows =
      { c := ((qual K rows).map (rowTaxa taxa)).foldl cntAddAll []
        totalLoci := (qual K rows).length
        hits := (qual K rows).map hitLine
        misses := (nonqual K rows).map missLine } := by
  rw [runB, foldlB_eq]; simp

/-! ### Helper lemmas: the counter -/

theorem cntGet_nil (x : String) : cntGet [] x = 0 := rfl

theorem cntGet_cons (p : String × Nat) (c : Cnt) (x : String) :
    cntGet (p :: c) x = if p.1 = x then p.2 else cntGet c x := by
  unfold cntGet
  by_cases h : p.1 = x
  · have hb : ((p.1 == x) = true) := by simp [h]
    rw [List.find?_cons_of_pos (p := fun q : String × Nat => q.1 == x) c hb, if_pos h]
  · have hb : ¬ ((p.1 == x) = true) := by simp [h]
    rw [List.find?_cons_of_neg (p := fun q : String × Nat => q.1 == x) c hb, if_neg h]

theorem cntAdd_cons_pos (p : String × Nat) (c : Cnt) (n : String) (h : p.1 = n) :
    cntAdd (p :: c) n = (p.1, p.2 + 1) :: c := by
  simp [cntAdd, h]

theorem cntAdd_cons_neg (p : String × Nat) (c : Cnt) (n : String) (h : ¬ p.1 = n) :
    cntAdd (p :: c) n = p :: cntAdd c n := by
  simp [cntAdd, h]

theorem cntGet_cntAdd (c : Cnt) (n x : String) :
    cntGet (cntAdd c n) x = cntGet c x + (if x = n then 1 else 0) := by
  induction c with
  | nil =>
    rw [show cntAdd [] n = [(n, 1)] from rfl, cntGet_cons, cntGet_nil]
    by_cases hxn : x = n
    · rw [if_pos hxn.symm, if_pos hxn]
    · rw [if_neg (fun h => hxn h.symm), if_neg hxn]
  | cons p c ih =>
    by_cases hpn : p.1 = n
    · rw [cntAdd_cons_pos p c n hpn]
      by_cases hpx : p.1 = x
      · have hxn : x = n := by rw [← hpx, hpn]
        rw [cntGet_cons, cntGet_cons, if_pos hpx, if_pos hpx, if_pos hxn]
      · have hxn : ¬ x = n := fun h => hpx (by rw [hpn, ← h])
        rw [cntGet_cons, cntGet_cons, if_neg hpx, if_neg hpx, if_neg hxn]
        omega
    · rw [cntAdd_cons_neg p c n hpn, cntGet_cons, cntGet_cons]
      by_cases hpx : p.1 = x
      · have hxn : ¬ x = n := fun h => hpn (by rw [hpx, h])
        rw [if_pos hpx, if_pos hpx, if_neg hxn]
        omega
      · rw [if_neg hpx, if_neg hpx, ih]

theorem cntGet_cntAddAll (ns : List String) (c : Cnt) (x : String) :
    cntGet (cntAddAll c ns) x = cntGet c x + ns.count x := by
  induction ns generalizing c with
  | nil => simp [cntAddAll]
  | cons n ns ih =>
    simp only [cntAddAll, List.foldl_cons] at *
    rw [ih, cntGet_cntAdd]
    by_cases hxn : x = n
    · subst hxn; rw [List.count_cons_self, if_pos rfl]; omega
    · rw [List.count_cons_of_ne hxn, if_neg hxn]
      omega

theorem cntGet_foldl_cntAddAll (lss : List (List String)) (c : Cnt) (x : String) :
    cntGet (lss.foldl cntAddAll c) x = cntGet c x + (lss.map (fun ns => ns.count x)).sum := by
  induction lss generalizing c with
  | nil => simp
  | cons ns lss ih =>
    simp only [List.foldl_cons, List.map_cons, List.sum_cons]
    rw [ih, cntGet_cntAddAll]
    omega

theorem mem_key_cntAdd (c : Cnt) (n : String) (q : String × Nat) (hq : q ∈ cntAdd c n) :
    q.1 = n ∨ ∃ q' ∈ c, q.1 = q'.1 := by
  induction c with
  | nil => simp [cntAdd] at hq; simp [hq]
  | cons p c ih =>
    by_cases hpn : p.1 = n
    · rw [cntAdd_cons_pos p c n hpn] at hq
      rcases List.mem_cons.1 hq with h | h
      · left; rw [h]; exact hpn
      · right; exact ⟨q, List.mem_cons_of_mem _ h, rfl⟩
    · rw [cntAdd_cons_neg p c n hpn] at hq
      rcases List.mem_cons.1 hq with h | h
      · right; exact ⟨p, List.mem_cons_self _ _, by rw [h]⟩
      · rcases ih h with h' | ⟨q', hq', hh⟩
        · left; exact h'
        · right; exact ⟨q', List.mem_cons_of_mem _ hq', hh⟩

theorem pos_cntAdd (c : Cnt) (n : String) (hpos : ∀ q ∈ c, 0 < q.2) :
    ∀ q ∈ cntAdd c n, 0 < q.2 := by
  induction c with
  | nil => intro q hq; simp [cntAdd] at hq; simp [hq]
  | cons p c ih =>
    intro q hq
    by_cases hpn : p.1 = n
    · rw [cntAdd_cons_pos p c n hpn] at hq
      rcases List.mem_cons.1 hq with h | h
      · rw [h]; simp
      · exact hpos q (List.mem_cons_of_mem _ h)
    · rw [cntAdd_cons_neg p c n hpn] at hq
      rcases List.mem_cons.1 hq with h | h
      · rw [h]; exact hpos p (List.mem_cons_self _ _)
      · exact ih (fun q' hq' => hpos q' (List.mem_cons_of_mem _ hq')) q h

theorem cntGet_pos_iff (c : Cnt) (x : String) (hpos : ∀ q ∈ c, 0 < q.2) :
    0 < cntGet c x ↔ ∃ q ∈ c, q.1 = x := by
  induction c with
  | nil => simp [cntGet_nil]
  | cons p c ih =>
    rw [cntGet_cons]
    by_cases hpx : p.1 = x
    · rw [if_pos hpx]
      constructor
      · intro _; exact ⟨p, List.mem_cons_self _ _, hpx⟩
      · intro _; exact hpos p (List.mem_cons_self _ _)
    · rw [if_neg hpx, ih (fun q hq => hpos q (List.mem_cons_of_mem _ hq))]
      constructor
      · rintro ⟨q, hq, h⟩; exact ⟨q, List.mem_cons_of_mem _ hq, h⟩
      · rintro ⟨q, hq, h⟩
        rcases List.mem_cons.1 hq with h' | h'
        · exact absurd (h' ▸ h) hpx
        · exact ⟨q, h', h⟩

/-! ### Helper lemmas: counting taxon hits -/

theorem mem_rowTaxa (taxa : List String) (r : Row) (x : String) (hx : x ∈ rowTaxa taxa r) :
    x ∈ taxa := by
  rw [rowTaxa] at hx
  rcases List.mem_map.1 hx with ⟨⟨a, b⟩, hp, rfl⟩
  exact (List.of_mem_zip (List.mem_filter.1 hp).1).1

theorem count_rowTaxa (taxa : List String) :
    ∀ (flags : List Nat) (s : String), taxa.Nodup → ∀ i (hi : i < taxa.length),
      (rowTaxa taxa ⟨s, flags⟩).count taxa[i] =
        if flags.getD i 0 == 1 then 1 else 0 := by
  induction taxa with
  | nil => intro flags s _ i hi; simp at hi
  | cons t ts ih =>
    intro flags s hnd i hi
    have hts : ts.Nodup := (List.nodup_cons.1 hnd).2
    have htn : t ∉ ts := (List.nodup_cons.1 hnd).1
    cases flags with
    | nil =>
      simp [rowTaxa]
    | cons f fs =>
      have hzip : (t :: ts).zip (f :: fs) = (t, f) :: ts.zip fs := rfl
      by_cases hf : f = 1
      · have hrt : rowTaxa (t :: ts) ⟨s, f :: fs⟩ = t :: rowTaxa ts ⟨s, fs⟩ := by
          rw [rowTaxa, hzip, List.filter_cons]
          simp [hf, rowTaxa]
        cases i with
        | zero =>
          rw [hrt, List.getElem_cons_zero, List.count_cons_self]
          have h0 : (rowTaxa ts ⟨s, fs⟩).count t = 0 :=
            List.count_eq_zero.2 (fun hmem => htn (mem_rowTaxa ts _ t hmem))
          simp [h0, hf]
        | succ i =>
          have hi' : i < ts.length := by simpa using hi
          have hne : ts[i] ≠ t := fun h => htn (h ▸ List.getElem_mem hi')
          rw [hrt, List.getElem_cons_succ, List.count_cons_of_ne hne,
            ih fs s hts i hi']
          rfl
      · have hrt : rowTaxa (t :: ts) ⟨s, f :: fs⟩ = rowTaxa ts ⟨s, fs⟩ := by
          rw [rowTaxa, hzip, List.filter_cons]
          simp [hf, rowTaxa]
        cases i with
        | zero =>
          rw [hrt, List.getElem_cons_zero]
          have h0 : (rowTaxa ts ⟨s, fs⟩).count t = 0 :=
            List.count_eq_zero.2 (fun hmem => htn (mem_rowTaxa ts _ t hmem))
          simp [h0, hf]
        | succ i =>
          have hi' : i < ts.length := by simpa using hi
          rw [hrt, List.getElem_cons_succ, ih fs s hts i hi']
          rfl

theorem sum_map_ite_count {α : Type} (l : List α) (p : α → Bool) :
    (l.map (fun a => if p a then (1 : Nat) else 0)).sum = l.countP p := by
  induction l with
  | nil => rfl
  | cons a l ih =>
    simp only [List.map_cons, List.sum_cons, List.countP_cons, ih]
    omega

/-- The value the Mode B taxon counter holds for the taxon at position `i`
of the taxon list: the number of rows that qualify and whose flag at
position `i` equals exactly 1. -/
theorem cntGet_runB (taxa : List String) (K : Nat) (rows : List Row)
    (hnd : taxa.Nodup) (i : Nat) (hi : i < taxa.length) :
    cntGet (runB taxa K rows).c taxa[i] =
      rows.countP (fun r => decide (K ≤ sumFlags r) && (r.flags.getD i 0 == 1)) := by
  rw [runB_eq]
  show cntGet (((qual K rows).map (rowTaxa taxa)).foldl cntAddAll []) taxa[i] = _
  rw [cntGet_foldl_cntAddAll, cntGet_nil, List.map_map]
  have hmap : (qual K rows).map ((fun ns => ns.count taxa[i]) ∘ rowTaxa taxa) =
      (qual K rows).map (fun r => if (r.flags.getD i 0 == 1) then (1 : Nat) else 0) := by
    apply List.map_congr_left
    intro r _
    show (rowTaxa taxa r).count taxa[i] = _
    have : r = ⟨r.id, r.flags⟩ := rfl
    rw [this, count_rowTaxa taxa r.flags r.id hnd i hi]
  rw [hmap, sum_map_ite_count, qual, List.countP_filter]
  have hcomm : (fun r => (r.flags.getD i 0 == 1) && decide (K ≤ sumFlags r)) =
      (fun r => decide (K ≤ sumFlags r) && (r.flags.getD i 0 == 1)) :=
    funext fun r => Bool.and_comm _ _
  rw [hcomm]
  omega

/-! ### Helper lemmas: counter keys -/

theorem pos_cntAddAll (ns : List String) (c : Cnt) (hpos : ∀ q ∈ c, 0 < q.2) :
    ∀ q ∈ cntAddAll c ns, 0 < q.2 := by
  induction ns generalizing c with
  | nil => exact hpos
  | cons n ns ih => exact ih (cntAdd c n) (pos_cntAdd c n hpos)

theorem pos_foldl_cntAddAll (lss : List (List String)) (c : Cnt)
    (hpos : ∀ q ∈ c, 0 < q.2) : ∀ q ∈ lss.foldl cntAddAll c, 0 < q.2 := by
  induction lss generalizing c with
  | nil => exact hpos
  | cons ns lss ih => exact ih (cntAddAll c ns) (pos_cntAddAll ns c hpos)

theorem mem_key_cntAddAll (ns : List String) (c : Cnt) (q : String × Nat)
    (hq : q ∈ cntAddAll c ns) : q.1 ∈ ns ∨ ∃ q' ∈ c, q.1 = q'.1 := by
  induction ns generalizing c with
  | nil => right; exact ⟨q, hq, rfl⟩
  | cons n ns ih =>
    rcases ih (cntAdd c n) hq with h | ⟨q', hq', hh⟩
    · left; exact List.mem_cons_of_mem _ h
    · rcases mem_key_cntAdd c n q' hq' with h' | ⟨q'', hq'', hh'⟩
      · left; rw [hh, h']; exact List.mem_cons_self _ _
      · right; exact ⟨q'', hq'', by rw [hh, hh']⟩

theorem mem_key_foldl_cntAddAll (lss : List (List String)) (c : Cnt) (q : String × Nat)
    (hq : q ∈ lss.foldl cntAddAll c) :
    (∃ ns ∈ lss, q.1 ∈ ns) ∨ ∃ q' ∈ c, q.1 = q'.1 := by
  induction lss generalizing c with
  | nil => right; exact ⟨q, hq, rfl⟩
  | cons ns lss ih =>
    rcases ih (cntAddAll c ns) hq with ⟨ns', hns', h⟩ | ⟨q', hq', hh⟩
    · left; exact ⟨ns', List.mem_cons_of_mem _ hns', h⟩
    · rcases mem_key_cntAddAll ns c q' hq' with h' | ⟨q'', hq'', hh'⟩
      · left; exact ⟨ns, List.mem_cons_self _ _, hh ▸ h'⟩
      · right; exact ⟨q'', hq'', by rw [hh, hh']⟩

/-- C2: In Mode B with threshold K, for every input row stream, every locus id
appears in exactly one of the two output files (in the hits file iff its
membership-flag sum is >= K, otherwise in the misses file), and the printed
Total Qualifying Loci value equals the number of locus lines written after the
[hits] marker.  The hits body is exactly the hit lines of the rows with flag
sum >= K, in input order; the misses body is exactly the miss lines of the
remaining rows; and `total_loci` equals the length of the hits body. -/
theorem modeB_partition (taxa : List String) (K : Nat) (rows : List Row) :
    (runB taxa K rows).hits =
        (rows.filter (fun r => decide (K ≤ sumFlags r))).map hitLine ∧
      (runB taxa K rows).misses =
        (rows.filter (fun r => decide (sumFlags r < K))).map missLine ∧
      (runB taxa K rows).totalLoci = (runB taxa K rows).hits.length := by
  rw [runB_eq]
  simp [qual, nonqual]

/-- C3: In Mode B with threshold K, for every taxon X in the Taxon List, the
count reported for X in the taxon hit summary equals the number of rows whose
membership-flag sum is >= K and whose flag in X's position equals exactly 1
(a flag value other than 1, e.g. 2, contributes to the qualifying sum but not
to X's count). -/
theorem modeB_taxon_counts (taxa : List String) (K : Nat) (rows : List Row)
    (hnd : taxa.Nodup) (i : Nat) (hi : i < taxa.length)
    (_harity : ∀ r ∈ rows, r.flags.length = taxa.length) :
    cntGet (runB taxa K rows).c taxa[i] =
      rows.countP (fun r => decide (K ≤ sumFlags r) && (r.flags.getD i 0 == 1)) :=
  cntGet_runB taxa K rows hnd i hi

theorem modeB_taxon_counts_witness :
    ((["A", "B", "C"] : List String).Nodup ∧
        (∀ r ∈ ([⟨"L1", [1, 1, 0]⟩, ⟨"L2", [2, 0, 0]⟩] : List Row),
          r.flags.length = (["A", "B", "C"] : List String).length)) ∧
      cntGet (runB ["A", "B", "C"] 2
          [⟨"L1", [1, 1, 0]⟩, ⟨"L2", [2, 0, 0]⟩]).c (["A", "B", "C"] : List String)[0] =
        ([⟨"L1", [1, 1, 0]⟩, ⟨"L2", [2, 0, 0]⟩] : List Row).countP
          (fun r => decide (2 ≤ sumFlags r) && (r.flags.getD 0 0 == 1)) :=
  ⟨⟨by decide, by decide⟩,
    modeB_taxon_counts ["A", "B", "C"] 2 [⟨"L1", [1, 1, 0]⟩, ⟨"L2", [2, 0, 0]⟩]
      (by decide) 0 (by decide) (by decide)⟩

/-- C10 (implicit): in Mode B, the printed taxon hit summary contains an entry
only for taxa that participated in at least one qualifying locus; a taxon
whose flag is never 1 in any qualifying row is absent from the summary rather
than reported with a count of 0.  The counter holds an entry whose key is the
taxon at position i iff some row qualifies with flag exactly 1 there, and
every counter key is a taxon name. -/
theorem modeB_counter_keys (taxa : List String) (K : Nat) (rows : List Row)
    (hnd : taxa.Nodup) (i : Nat) (hi : i < taxa.length) :
    ((runB taxa K rows).c.any (fun q => q.1 == taxa[i]) = true ↔
      ∃ r ∈ rows, K ≤ sumFlags r ∧ r.flags.getD i 0 = 1) ∧
    ∀ q ∈ (runB taxa K rows).c, q.1 ∈ taxa := by
  have hc : (runB taxa K rows).c = ((qual K rows).map (rowTaxa taxa)).foldl cntAddAll [] := by
    rw [runB_eq]
  have hpos : ∀ q ∈ (runB taxa K rows).c, 0 < q.2 := by
    rw [hc]; exact pos_foldl_cntAddAll _ [] (by simp)
  constructor
  · rw [List.any_eq_true]
    constructor
    · rintro ⟨q, hq, hqx⟩
      have hlt : 0 < cntGet (runB taxa K rows).c taxa[i] :=
        (cntGet_pos_iff _ _ hpos).2 ⟨q, hq, by simpa using hqx⟩
      rw [cntGet_runB taxa K rows hnd i hi] at hlt
      rcases List.countP_pos_iff.1 hlt with ⟨r, hr, hpr⟩
      simp only [Bool.and_eq_true, decide_eq_true_eq, beq_iff_eq] at hpr
      exact ⟨r, hr, hpr.1, hpr.2⟩
    · rintro ⟨r, hr, hKr, hfr⟩
      have hlt : 0 < cntGet (runB taxa K rows).c taxa[i] := by
        rw [cntGet_runB taxa K rows hnd i hi]
        refine List.countP_pos_iff.2 ⟨r, hr, ?_⟩
        simp only [Bool.and_eq_true, decide_eq_true_eq, beq_iff_eq]
        exact ⟨hKr, hfr⟩
      rcases (cntGet_pos_iff _ _ hpos).1 hlt with ⟨q, hq, hqx⟩
      exact ⟨q, hq, by simp [hqx]⟩
  · intro q hq
    rw [hc] at hq
    rcases mem_key_foldl_cntAddAll _ [] q hq with ⟨ns, hns, hmem⟩ | ⟨q', hq', _⟩
    · rcases List.mem_map.1 hns with ⟨r, _, rfl⟩
      exact mem_rowTaxa taxa r q.1 hmem
    · simp at hq'

theorem modeB_counter_keys_witness :
    ((["A", "B", "C"] : List String).Nodup ∧
        ((runB ["A", "B", "C"] 2 [⟨"L1", [1, 1, 0]⟩]).c.any
            (fun q => q.1 == (["A", "B", "C"] : List String)[2]) = true ↔
          ∃ r ∈ ([⟨"L1", [1, 1, 0]⟩] : List Row),
            2 ≤ sumFlags r ∧ r.flags.getD 2 0 = 1) ∧
        ∀ q ∈ (runB ["A", "B", "C"] 2 [⟨"L1", [1, 1, 0]⟩]).c, q.1 ∈ ["A", "B", "C"]) ∧
      ¬ (runB ["A", "B", "C"] 2 [⟨"L1", [1, 1, 0]⟩]).c.any
          (fun q => q.1 == "C") = true :=
  ⟨⟨by decide,
    (modeB_counter_keys ["A", "B", "C"] 2 [⟨"L1", [1, 1, 0]⟩] (by decide) 2 (by decide)).1,
    (modeB_counter_keys ["A", "B", "C"] 2 [⟨"L1", [1, 1, 0]⟩] (by decide) 2 (by decide)).2⟩,
    by decide⟩

/-! ### Helper lemmas: Mode A histogram -/

theorem set_drop_sum (cs : List Nat) :
    ∀ s i : Nat, s < cs.length →
      ((cs.set s (cs.getD s 0 + 1)).drop i).sum =
        (cs.drop i).sum + (if i ≤ s then 1 else 0) := by
  induction cs with
  | nil => intro s i h; simp at h
  | cons c cs ih =>
    intro s i h
    cases s with
    | zero =>
      cases i with
      | zero => simp [List.sum_cons]; omega
      | succ j => simp
    | succ t =>
      have ht : t < cs.length := by simpa using h
      cases i with
      | zero =>
        have h0 := ih t 0 ht
        simp only [List.drop_zero] at h0
        simp only [List.set_cons_succ, List.getD_cons_succ, List.drop_zero,
          List.sum_cons, h0, Nat.zero_le, if_true]
        omega
      | succ j =>
        have := ih t j ht
        simp only [List.set_cons_succ, List.getD_cons_succ, List.drop_succ_cons, this,
          Nat.add_le_add_iff_right]

theorem foldlA_ok (rows : List Row) :
    ∀ cs : List Nat, (∀ r ∈ rows, sumFlags r < cs.length) →
      ∃ out, rows.foldlM stepA cs = Except.ok out ∧ out.length = cs.length ∧
        ∀ i, (out.drop i).sum =
          (cs.drop i).sum + rows.countP (fun r => decide (i ≤ sumFlags r)) := by
  induction rows with
  | nil => intro cs _; exact ⟨cs, rfl, rfl, fun i => by simp⟩
  | cons r rows ih =>
    intro cs h
    have hr : sumFlags r < cs.length := h r (List.mem_cons_self _ _)
    have hstep : stepA cs r =
        Except.ok (cs.set (sumFlags r) (cs.getD (sumFlags r) 0 + 1)) := by
      rw [stepA]; simp [hr]
    rcases ih (cs.set (sumFlags r) (cs.getD (sumFlags r) 0 + 1))
        (fun r' hr' => by simpa using h r' (List.mem_cons_of_mem _ hr')) with
      ⟨out, hout, hlen, hsum⟩
    refine ⟨out, ?_, ?_, ?_⟩
    · rw [List.foldlM_cons, hstep]
      simpa using hout
    · rw [hlen]; simp
    · intro i
      rw [hsum i, set_drop_sum cs (sumFlags r) i hr, List.countP_cons]
      by_cases hir : i ≤ sumFlags r
      · simp only [hir, decide_eq_true_eq, if_pos hir]
        omega
      · simp only [if_neg hir, decide_eq_true_eq]
        omega

theorem foldlA_error (rows : List Row) :
    ∀ cs : List Nat, (∃ r ∈ rows, cs.length ≤ sumFlags r) →
      rows.foldlM stepA cs = Except.error () := by
  induction rows with
  | nil => intro cs h; rcases h with ⟨r, hr, _⟩; simp at hr
  | cons r rows ih =>
    intro cs h
    by_cases hr : sumFlags r < cs.length
    · have hstep : stepA cs r =
          Except.ok (cs.set (sumFlags r) (cs.getD (sumFlags r) 0 + 1)) := by
        rw [stepA]; simp [hr]
      rw [List.foldlM_cons, hstep]
      have : ∃ r' ∈ rows, (cs.set (sumFlags r) (cs.getD (sumFlags r) 0 + 1)).length ≤ sumFlags r' := by
        rcases h with ⟨r', hr', hge⟩
        rcases List.mem_cons.1 hr' with hrr | hmem
        · exfalso; rw [hrr] at hge; omega
        · exact ⟨r', hmem, by simpa using hge⟩
      simpa using ih _ this
    · have hstep : stepA cs r = Except.error () := by
        rw [stepA]; simp [hr]
      rw [List.foldlM_cons, hstep]
      rfl

theorem runA_ok (T : Nat) (rows : List Row) (h : ∀ r ∈ rows, sumFlags r ≤ T) :
    ∃ counts, runA T rows = Except.ok counts ∧ counts.length = T + 1 ∧
      ∀ i, (counts.drop i).sum = rows.countP (fun r => decide (i ≤ sumFlags r)) := by
  rcases foldlA_ok rows (List.replicate (T + 1) 0)
      (fun r hr => by have := h r hr; simp; omega) with ⟨out, h1, h2, h3⟩
  refine ⟨out, h1, by simpa using h2, fun i => ?_⟩
  have := h3 i
  simpa using this

theorem printedA_getD (T : Nat) (counts : List Nat) (i : Nat) (hi : i ≤ T) :
    (printedA T counts).getD i 0 = (counts.drop i).sum := by
  rw [printedA, List.getD_eq_getElem?_getD, List.getElem?_map,
    List.getElem?_range (by omega : i < T + 1)]
  rfl

theorem drop_sum_succ_le (cs : List Nat) (i : Nat) :
    (cs.drop (i + 1)).sum ≤ (cs.drop i).sum := by
  have hdd : cs.drop (i + 1) = (cs.drop i).drop 1 := by
    rw [List.drop_drop, Nat.add_comm]
  rw [hdd]
  cases h : cs.drop i with
  | nil => simp
  | cons a l => simp

/-- C1: In Mode A (no threshold supplied), for every input row stream of R
well-formed rows and every threshold i in [0, T], the count printed on the
line labeled i equals the number of loci whose membership-flag sum is at
least i (the suffix sum of the histogram from bucket i); in particular the
count printed for i = 0 equals R. -/
theorem modeA_cumulative_counts (T : Nat) (rows : List Row)
    (hwf : ∀ r ∈ rows, sumFlags r ≤ T) :
    ∃ counts, runA T rows = Except.ok counts ∧
      (∀ i, i ≤ T → (printedA T counts).getD i 0 =
        rows.countP (fun r => decide (i ≤ sumFlags r))) ∧
      (printedA T counts).getD 0 0 = rows.length := by
  rcases runA_ok T rows hwf with ⟨counts, h1, _h2, h3⟩
  refine ⟨counts, h1, fun i hi => ?_, ?_⟩
  · rw [printedA_getD T counts i hi, h3 i]
  · rw [printedA_getD T counts 0 (Nat.zero_le T), h3 0]
    exact List.countP_eq_length.2 (fun r _ => by simp)

theorem modeA_cumulative_counts_witness :
    (∀ r ∈ ([⟨"L1", [1, 1, 0]⟩, ⟨"L2", [1, 1, 1]⟩, ⟨"L3", [0, 0, 0]⟩] : List Row),
        sumFlags r ≤ 3) ∧
      ∃ counts,
        runA 3 [⟨"L1", [1, 1, 0]⟩, ⟨"L2", [1, 1, 1]⟩, ⟨"L3", [0, 0, 0]⟩] =
          Except.ok counts ∧
        (∀ i, i ≤ 3 → (printedA 3 counts).getD i 0 =
          ([⟨"L1", [1, 1, 0]⟩, ⟨"L2", [1, 1, 1]⟩, ⟨"L3", [0, 0, 0]⟩] : List Row).countP
            (fun r => decide (i ≤ sumFlags r))) ∧
        (printedA 3 counts).getD 0 0 =
          ([⟨"L1", [1, 1, 0]⟩, ⟨"L2", [1, 1, 1]⟩, ⟨"L3", [0, 0, 0]⟩] : List Row).length :=
  ⟨by decide,
    modeA_cumulative_counts 3 [⟨"L1", [1, 1, 0]⟩, ⟨"L2", [1, 1, 1]⟩, ⟨"L3", [0, 0, 0]⟩]
      (by decide)⟩

/-- C9: In Mode A, for every input and every threshold i in [0, T-1], the
count reported at threshold i is greater than or equal to the count reported
at threshold i+1 (the printed cumulative counts are monotonically
non-increasing in i). -/
theorem modeA_monotone (T : Nat) (rows : List Row) (counts : List Nat)
    (_hrun : runA T rows = Except.ok counts) (i : Nat) (hi : i < T) :
    (printedA T counts).getD (i + 1) 0 ≤ (printedA T counts).getD i 0 := by
  rw [printedA_getD T counts i (by omega), printedA_getD T counts (i + 1) (by omega)]
  exact drop_sum_succ_le counts i

theorem modeA_monotone_witness :
    runA 3 [⟨"L1", [1, 1, 0]⟩, ⟨"L2", [1, 1, 1]⟩, ⟨"L3", [0, 0, 0]⟩] =
        Except.ok [1, 0, 1, 1] ∧ 1 < 3 ∧
      (printedA 3 [1, 0, 1, 1]).getD 2 0 ≤ (printedA 3 [1, 0, 1, 1]).getD 1 0 :=
  ⟨rfl, by decide,
    modeA_monotone 3 [⟨"L1", [1, 1, 0]⟩, ⟨"L2", [1, 1, 1]⟩, ⟨"L3", [0, 0, 0]⟩]
      [1, 0, 1, 1] rfl 1 (by decide)⟩

/-- C5 counterexample: a Mode A row whose membership-flag sum (2) exceeds the
taxon count (T = 1) does not get reported-and-skipped: the numpy index
`counts[ss]` raises `IndexError`, the pass terminates, and no histogram is
produced at all — the later well-formed row `L2` is never counted. -/
theorem modeA_overflow_cex :
    runA 1 [⟨"L1", [2]⟩, ⟨"L2", [1]⟩] = Except.error () ∧
      ¬ ∃ counts, runA 1 [⟨"L1", [2]⟩, ⟨"L2", [1]⟩] = Except.ok counts := by
  constructor
  · rfl
  · rintro ⟨counts, hc⟩
    rw [show runA 1 [⟨"L1", [2]⟩, ⟨"L2", [1]⟩] = Except.error () from rfl] at hc
    exact Except.noConfusion hc

/-- C5 (amended): In Mode A, a row whose membership-flag sum exceeds T raises
an IndexError that terminates the pass: the run produces an error instead of
a histogram, so the row contributes to no bucket and no counts are printed
(the program does not skip the row and continue). -/
theorem modeA_overflow_aborts (T : Nat) (rows : List Row)
    (h : ∃ r ∈ rows, T < sumFlags r) :
    runA T rows = Except.error () := by
  apply foldlA_error
  rcases h with ⟨r, hr, hlt⟩
  exact ⟨r, hr, by simpa using hlt⟩

theorem modeA_overflow_aborts_witness :
    (∃ r ∈ ([⟨"L1", [3]⟩] : List Row), 1 < sumFlags r) ∧
      runA 1 [⟨"L1", [3]⟩] = Except.error () :=
  ⟨by decide, modeA_overflow_aborts 1 [⟨"L1", [3]⟩] (by decide)⟩

/-- C4: evaluation at the failing input.  Python's `if not
args.specific_counts` treats a supplied threshold of 0 like an absent one,
so `--specific-counts 0` runs Mode A (the histogram), not Mode B; only
nonzero thresholds select Mode B.  The two branches of the `if` remain
mutually exclusive. -/
theorem threshold_zero_selects_modeA :
    selectsModeB (some 0) = false ∧ selectsModeB none = false ∧
      selectsModeB (some 1) = true ∧ selectsModeB (some 2) = true := by
  decide

/-- C7: evaluation at the failing input.  `SpecificCountsAction` checks
`args.specific_counts and not args.output`; a supplied threshold of 0 is
falsy, so `--specific-counts 0` with no `--output` raises no parser error,
while any nonzero threshold without an output does. -/
theorem threshold_zero_without_output_no_error :
    specificCountsErrors 0 none = false ∧ specificCountsErrors 2 none = true := by
  decide

/-- C6 counterexample: with an empty database and base taxon "loci", schema
introspection (`PRAGMA table_info`) raises nothing and yields an empty
column list; the run then fails at `SELECT` execution time with
`sqlite3.OperationalError` ("no such table"), not with a ConfigurationError
at schema-introspection time (no such exception type exists in the code). -/
theorem missing_table_cex :
    pragmaTableInfo [] "loci" = [] ∧
      runModeA [] "loci" =
        Except.error (RunError.operationalError ("no such table: " ++ "loci")) :=
  ⟨rfl, rfl⟩

/-- C6 (amended): for every database in which the base-taxon table does not
exist, schema introspection succeeds and returns an empty column list (so no
error is raised at schema-introspection time); the run fails when the SELECT
query is executed — still before any row is read — with an
OperationalError, not a ConfigurationError. -/
theorem missing_table_operational_error (db : Db) (name : String)
    (h : db.find? (fun p => p.1 == name) = none) :
    pragmaTableInfo db name = [] ∧
      runModeA db name =
        Except.error (RunError.operationalError ("no such table: " ++ name)) := by
  have hsel : selectAll db name =
      Except.error (RunError.operationalError ("no such table: " ++ name)) := by
    unfold selectAll
    rw [h]
  constructor
  · unfold pragmaTableInfo
    rw [h]
  · unfold runModeA
    rw [hsel]

theorem missing_table_operational_error_witness :
    (([] : Db).find? (fun p => p.1 == "loci") = none) ∧
      (pragmaTableInfo [] "loci" = [] ∧
        runModeA [] "loci" =
          Except.error (RunError.operationalError ("no such table: " ++ "loci"))) :=
  ⟨rfl, missing_table_operational_error [] "loci" rfl⟩

/-! ### Helper lemmas: characters of the misses line -/

theorem digitChar_ne_tab (m : Nat) : Nat.digitChar m ≠ '\t' := by
  by_cases h : m < 16
  · interval_cases m <;> decide
  · unfold Nat.digitChar
    rw [if_neg (by omega : ¬ m = 0),
      if_neg (by omega : ¬ m = 1),
      if_neg (by omega : ¬ m = 2),
      if_neg (by omega : ¬ m = 3),
      if_neg (by omega : ¬ m = 4),
      if_neg (by omega : ¬ m = 5),
      if_neg (by omega : ¬ m = 6),
      if_neg (by omega : ¬ m = 7),
      if_neg (by omega : ¬ m = 8),
      if_neg (by omega : ¬ m = 9),
      if_neg (by omega : ¬ m = 10),
      if_neg (by omega : ¬ m = 11),
      if_neg (by omega : ¬ m = 12),
      if_neg (by omega : ¬ m = 13),
      if_neg (by omega : ¬ m = 14),
      if_neg (by omega : ¬ m = 15)]
    decide

theorem toDigitsCore_ne_tab (b f : Nat) :
    ∀ (n : Nat) (ds : List Char), (∀ c ∈ ds, c ≠ '\t') →
      ∀ c ∈ Nat.toDigitsCore b f n ds, c ≠ '\t' := by
  induction f with
  | zero => intro n ds hds c hc; exact hds c hc
  | succ f ih =>
    intro n ds hds c hc
    simp only [Nat.toDigitsCore] at hc
    by_cases hdiv : n / b = 0
    · rw [if_pos hdiv] at hc
      rcases List.mem_cons.1 hc with rfl | hmem
      · exact digitChar_ne_tab _
      · exact hds c hmem
    · rw [if_neg hdiv] at hc
      refine ih (n / b) (Nat.digitChar (n % b) :: ds) ?_ c hc
      intro c' hc'
      rcases List.mem_cons.1 hc' with rfl | hm
      · exact digitChar_ne_tab _
      · exact hds c' hm

theorem repr_ne_tab (n : Nat) : ∀ c ∈ (Nat.repr n).data, c ≠ '\t' := by
  intro c hc
  have hdata : (Nat.repr n).data = Nat.toDigitsCore 10 (n + 1) n [] := rfl
  rw [hdata] at hc
  exact toDigitsCore_ne_tab 10 (n + 1) n [] (by simp) c hc

theorem takeWhile_append_all {α : Type} (p : α → Bool) (l1 l2 : List α)
    (h : ∀ a ∈ l1, p a = true) :
    (l1 ++ l2).takeWhile p = l1 ++ l2.takeWhile p := by
  induction l1 with
  | nil => simp
  | cons a l ih =>
    simp only [List.cons_append, List.takeWhile_cons, h a (List.mem_cons_self _ _),
      if_true]
    rw [ih (fun x hx => h x (List.mem_cons_of_mem _ hx))]

theorem dropWhile_append_all {α : Type} (p : α → Bool) (l1 l2 : List α)
    (h : ∀ a ∈ l1, p a = true) :
    (l1 ++ l2).dropWhile p = l2.dropWhile p := by
  induction l1 with
  | nil => simp
  | cons a l ih =>
    simp only [List.cons_append, List.dropWhile_cons, h a (List.mem_cons_self _ _),
      if_true]
    exact ih (fun x hx => h x (List.mem_cons_of_mem _ hx))

/-- C8: In Mode B, every line written for a non-qualifying locus consists of
exactly two tab-separated fields — the locus id and its taxon_count — and the
per-taxon flag values are never written to that line, for every input row:
each misses line is `missLine r`, contains exactly one tab, its prefix before
the tab is the locus id, and everything after the tab is the decimal
taxon_count followed by the newline (no flag list). -/
theorem modeB_miss_line_fields (taxa : List String) (K : Nat) (rows : List Row)
    (line : String) (hline : line ∈ (runB taxa K rows).misses)
    (hid : ∀ r ∈ rows, ∀ c ∈ r.id.data, c ≠ '\t') :
    ∃ r ∈ rows, sumFlags r < K ∧ line = missLine r ∧
      line.data.count '\t' = 1 ∧
      line.data.takeWhile (fun c => c != '\t') = r.id.data ∧
      line.data.dropWhile (fun c => c != '\t') =
        '\t' :: ((Nat.repr (sumFlags r)).data ++ ['\n']) := by
  have hm : (runB taxa K rows).misses = (nonqual K rows).map missLine := by
    rw [runB_eq]
  rw [hm] at hline
  rcases List.mem_map.1 hline with ⟨r, hrn, rfl⟩
  have hmem : r ∈ rows := (List.mem_filter.1 hrn).1
  have hlt : sumFlags r < K := by simpa using (List.mem_filter.1 hrn).2
  have hdata : (missLine r).data =
      r.id.data ++ ('\t' :: ((Nat.repr (sumFlags r)).data ++ ['\n'])) := by
    rw [missLine]
    simp [String.data_append]
  have hall : ∀ c ∈ r.id.data, ((c != '\t') = true) :=
    fun c hc => bne_iff_ne.2 (hid r hmem c hc)
  refine ⟨r, hmem, hlt, rfl, ?_, ?_, ?_⟩
  · have h1 : r.id.data.count '\t' = 0 :=
      List.count_eq_zero.2 (fun hmm => hid r hmem '\t' hmm rfl)
    have h2 : (Nat.repr (sumFlags r)).data.count '\t' = 0 :=
      List.count_eq_zero.2 (fun hmm => repr_ne_tab _ '\t' hmm rfl)
    have h3 : (['\n'] : List Char).count '\t' = 0 := by decide
    rw [hdata, List.count_append, h1, List.count_cons_self, List.count_append, h2, h3]
  · rw [hdata, takeWhile_append_all _ _ _ hall, List.takeWhile_cons]
    simp
  · rw [hdata, dropWhile_append_all _ _ _ hall, List.dropWhile_cons]
    simp

theorem modeB_miss_line_fields_witness :
    ("L3\t0\n" ∈ (runB ["A"] 1 [⟨"L3", [0]⟩]).misses ∧
        (∀ r ∈ ([⟨"L3", [0]⟩] : List Row), ∀ c ∈ r.id.data, c ≠ '\t')) ∧
      ∃ r ∈ ([⟨"L3", [0]⟩] : List Row), sumFlags r < 1 ∧
        "L3\t0\n" = missLine r ∧
        "L3\t0\n".data.count '\t' = 1 ∧
        "L3\t0\n".data.takeWhile (fun c => c != '\t') = r.id.data ∧
        "L3\t0\n".data.dropWhile (fun c => c != '\t') =
          '\t' :: ((Nat.repr (sumFlags r)).data ++ ['\n']) :=
  ⟨⟨by decide, by decide⟩,
    modeB_miss_line_fields ["A"] 1 [⟨"L3", [0]⟩] "L3\t0\n" (by decide) (by decide)⟩

end QueryMultiFastaTable
